import Mathlib

/-!
Verification development for the `plot_top_words` routine of the
TextXD-Python-Text-Analysis notebooks (the "top-weighted feature extraction
and normalization" core).

The Python source is:

    components = model.components_
    if normalize:
        components = components / components.sum(axis=1)[:, np.newaxis]
    for topic_idx, topic in enumerate(components):
        top_features_ind = topic.argsort()[: -n_top_words - 1 : -1]
        top_features = [feature_names[i] for i in top_features_ind]
        weights = topic[top_features_ind]
        ...plotting only...

We embed the computational content (normalization, per-row top-term
selection, name lookup, weight pairing) shallowly:

* scalars are `PyFloat`, IEEE-style values over exact rationals, so that
  numpy's `0.0 / 0.0 = NaN` and `x / 0.0 = ±inf` behaviour is representable;
* `numpy.argsort` on a 1-D array is modelled as the stable ascending sort of
  indices by value (ties keep ascending index order; NaN sorts last, as numpy
  sorts it), realised as a sort of `(index, value)` pairs under the
  lexicographic key (value-rank, value, index);
* the Python slice `a[: -n - 1 : -1]` (for `n ≥ 0`) takes the last
  `min n a.length` elements in reversed order, i.e. `(a.reverse).take n`;
* Python list indexing `feature_names[i]` (with `i ≥ 0` coming from argsort)
  raises `IndexError` when `i ≥ len(feature_names)`, modelled in `Except`.
-/

namespace TextXD

/-- IEEE-style scalar as produced by numpy float arithmetic: a finite value
(an exact rational), a signed infinity, or NaN. -/
inductive PyFloat where
  | fin (q : ℚ)
  | inf (pos : Bool)
  | nan
  deriving DecidableEq, Repr

namespace PyFloat

/-- IEEE addition on `PyFloat` (as used by `components.sum(axis=1)`). -/
def add : PyFloat → PyFloat → PyFloat
  | fin a, fin b => fin (a + b)
  | nan, _ => nan
  | _, nan => nan
  | inf p, inf q => if p = q then inf p else nan
  | inf p, fin _ => inf p
  | fin _, inf q => inf q

/-- IEEE division on `PyFloat` (as used by the row normalization):
`0/0 = NaN`, `a/0 = ±inf` for finite nonzero `a`. -/
def div : PyFloat → PyFloat → PyFloat
  | fin a, fin b =>
      if b = 0 then (if a = 0 then nan else if 0 < a then inf true else inf false)
      else fin (a / b)
  | nan, _ => nan
  | fin _, nan => nan
  | inf _, nan => nan
  | inf p, fin b => if 0 ≤ b then inf p else inf (!p)
  | fin _, inf _ => fin 0
  | inf _, inf _ => nan

/-- Rank of a value in numpy's sort order: `-inf < finite < +inf < NaN`
(numpy sorts NaN to the end of the array). -/
def rank : PyFloat → ℕ
  | inf false => 0
  | fin _ => 1
  | inf true => 2
  | nan => 3

/-- The rational carried by a finite value (`0` for the specials; only
meaningful at rank 1). -/
def qval : PyFloat → ℚ
  | fin q => q
  | _ => 0

/-- `x.isFin` means `x` is a finite value (rank 1 in the sort order). -/
def isFin (x : PyFloat) : Prop := x.rank = 1

instance : ∀ x : PyFloat, Decidable x.isFin := fun x => by unfold isFin; infer_instance

end PyFloat

/-- numpy's sort order on values, as a (total, reflexive, transitive)
comparison: first by rank (`-inf < finite < +inf < NaN`), then by the
rational value among finite values. -/
def valueLe (a b : PyFloat) : Prop :=
  a.rank < b.rank ∨ (a.rank = b.rank ∧ a.qval ≤ b.qval)

instance : ∀ a b, Decidable (valueLe a b) := fun a b => by unfold valueLe; infer_instance

/-- The key order under which a stable ascending argsort sorts the
`(index, value)` pairs: by value, ties broken by ascending original index.
Since indices are distinct this lexicographic order has no ties, and sorting
by it coincides with any stable sort by value. -/
def pairLeP (a b : ℕ × PyFloat) : Prop :=
  a.2.rank < b.2.rank ∨
    (a.2.rank = b.2.rank ∧
      (a.2.qval < b.2.qval ∨ (a.2.qval = b.2.qval ∧ a.1 ≤ b.1)))

instance : ∀ a b, Decidable (pairLeP a b) := fun a b => by unfold pairLeP; infer_instance

/-- The `(index, value)` pairs of a topic row, sorted ascending by value with
ties in ascending index order (numpy's stable argsort, keeping the values).
Sorting by the tie-free lexicographic key `pairLeP` coincides with every
stable sort by value, so the choice of sorting algorithm is immaterial. -/
def sortedPairs (row : List PyFloat) : List (ℕ × PyFloat) :=
  (row.enum).insertionSort pairLeP

/-- `topic.argsort()`: indices of the row sorted ascending by value,
ties in ascending original order. -/
def argsort (row : List PyFloat) : List ℕ :=
  (sortedPairs row).map Prod.fst

/-- The Python slice `a[: -n - 1 : -1]` for `n ≥ 0`: the last `min n a.length`
elements of `a`, in reversed order. (For `n ≥ len` the stop index normalises
to before the beginning, yielding the whole reversed list; for `n = 0` it is
empty.) -/
def pySliceTopRev (a : List ℕ) (n : ℕ) : List ℕ := (a.reverse).take n

/-- `top_features_ind = topic.argsort()[: -n_top_words - 1 : -1]`. -/
def top_features_ind (topic : List PyFloat) (n_top_words : ℕ) : List ℕ :=
  pySliceTopRev (argsort topic) n_top_words

/-- Python list indexing `names[i]` for `i ≥ 0`: `IndexError` out of range. -/
def listGet (names : List String) (i : ℕ) : Except String String :=
  if h : i < names.length then .ok (names.get ⟨i, h⟩) else .error "IndexError"

/-- Left-to-right effectful map in `Except`, as a Python loop or list
comprehension behaves: the first raised error aborts the traversal. -/
def mapExcept (f : α → Except ε β) : List α → Except ε (List β)
  | [] => .ok []
  | a :: l =>
    match f a with
    | .error e => .error e
    | .ok b =>
      match mapExcept f l with
      | .error e => .error e
      | .ok bs => .ok (b :: bs)

/-- One loop iteration's extraction content: the (token name, weight) pairs
for a single topic row (`top_features` zipped with `weights`); Python's list
comprehension over `feature_names` raises `IndexError` at the first
out-of-range index. -/
def topicTopWords (feature_names : List String) (n_top_words : ℕ)
    (topic : List PyFloat) : Except String (List (String × PyFloat)) :=
  mapExcept
    (fun i => (listGet feature_names i).map (fun s => (s, topic.getD i PyFloat.nan)))
    (top_features_ind topic n_top_words)

/-- `components.sum(axis=1)` for one row: left fold of IEEE addition from 0. -/
def pySum (row : List PyFloat) : PyFloat := row.foldl PyFloat.add (PyFloat.fin 0)

/-- `components / components.sum(axis=1)[:, np.newaxis]`: each row divided
elementwise by its own sum. numpy emits at most a RuntimeWarning on a zero
sum and produces NaN/±inf entries; no exception is raised. -/
def normalizeComponents (components : List (List PyFloat)) : List (List PyFloat) :=
  components.map (fun row => row.map (fun x => x.div (pySum row)))

/-- The extraction content of `plot_top_words`: optional row normalization,
then the per-row top-term selection, in row order. -/
def plot_top_words (components : List (List PyFloat)) (feature_names : List String)
    (n_top_words : ℕ) (normalize : Bool) :
    Except String (List (List (String × PyFloat))) :=
  let comps := if normalize then normalizeComponents components else components
  mapExcept (topicTopWords feature_names n_top_words) comps

/-- A store of allocated 2-D arrays; a reference is a position in the store.
Used to express the frame property: numpy's elementwise division allocates a
fresh array, and `model.components_` is never assigned. -/
abbrev Store := List (List (List PyFloat))

/-- Allocate a fresh array in the store, returning its reference. -/
def Store.alloc (h : Store) (a : List (List PyFloat)) : Store × ℕ :=
  (h ++ [a], h.length)

/-- Read the array a reference points to. -/
def Store.read (h : Store) (r : ℕ) : List (List PyFloat) := h.getD r []

/-- State-passing embedding of `plot_top_words`: `model.components_` lives in
the store at `modelRef`; `components = components / ...` allocates a fresh
array and rebinds only the local name. -/
def plot_top_words_run (h : Store) (modelRef : ℕ) (feature_names : List String)
    (n_top_words : ℕ) (normalize : Bool) :
    Store × Except String (List (List (String × PyFloat))) :=
  let comps0 := h.read modelRef
  let p := if normalize then h.alloc (normalizeComponents comps0) else (h, modelRef)
  (p.1, mapExcept (topicTopWords feature_names n_top_words) (Store.read p.1 p.2))

/-- The selected `(index, value)` pairs of a row: the value-carrying form of
`top_features_ind`. -/
def selPairs (row : List PyFloat) (n : ℕ) : List (ℕ × PyFloat) :=
  ((sortedPairs row).reverse).take n

/-- The (token, weight) list produced for one topic row when every selected
index lies inside the vocabulary: `top_features` paired with `weights`. -/
def summaryRow (feature_names : List String) (n_top_words : ℕ)
    (topic : List PyFloat) : List (String × PyFloat) :=
  (top_features_ind topic n_top_words).map
    (fun i => (feature_names.getD i "", topic.getD i PyFloat.nan))

instance : IsTotal (ℕ × PyFloat) pairLeP := by
  constructor
  intro a b
  unfold pairLeP
  rcases lt_trichotomy a.2.rank b.2.rank with h | h | h
  · exact Or.inl (Or.inl h)
  · rcases lt_trichotomy a.2.qval b.2.qval with h' | h' | h'
    · exact Or.inl (Or.inr ⟨h, Or.inl h'⟩)
    · rcases Nat.le_total a.1 b.1 with h'' | h''
      · exact Or.inl (Or.inr ⟨h, Or.inr ⟨h', h''⟩⟩)
      · exact Or.inr (Or.inr ⟨h.symm, Or.inr ⟨h'.symm, h''⟩⟩)
    · exact Or.inr (Or.inr ⟨h.symm, Or.inl h'⟩)
  · exact Or.inr (Or.inl h)

instance : IsTrans (ℕ × PyFloat) pairLeP := by
  constructor
  intro a b c hab hbc
  unfold pairLeP at hab hbc ⊢
  rcases hab with h1 | ⟨h1, h2⟩ <;> rcases hbc with h3 | ⟨h3, h4⟩
  · exact Or.inl (h1.trans h3)
  · exact Or.inl (lt_of_lt_of_eq h1 h3)
  · exact Or.inl (lt_of_eq_of_lt h1 h3)
  · refine Or.inr ⟨h1.trans h3, ?_⟩
    rcases h2 with h2 | ⟨h2, h5⟩ <;> rcases h4 with h4 | ⟨h4, h6⟩
    · exact Or.inl (h2.trans h4)
    · exact Or.inl (lt_of_lt_of_eq h2 h4)
    · exact Or.inl (lt_of_eq_of_lt h2 h4)
    · exact Or.inr ⟨h2.trans h4, h5.trans h6⟩

namespace PyFloat

/-- A `PyFloat` is determined by its sort key `(rank, qval)`. -/
theorem eq_of_rank_qval : ∀ {a b : PyFloat}, a.rank = b.rank → a.qval = b.qval → a = b := by
  intro a b hr hq
  cases a with
  | fin q =>
    cases b with
    | fin q' => simp only [qval] at hq; rw [hq]
    | inf p' => cases p' <;> simp [rank] at hr
    | nan => simp [rank] at hr
  | inf p =>
    cases b with
    | fin q' => cases p <;> simp [rank] at hr
    | inf p' => cases p <;> cases p' <;> simp [rank] at hr <;> rfl
    | nan => cases p <;> simp [rank] at hr
  | nan =>
    cases b with
    | fin q' => simp [rank] at hr
    | inf p' => cases p' <;> simp [rank] at hr
    | nan => rfl

/-- A finite value is `fin` of its rational. -/
theorem eq_fin_of_isFin : ∀ {x : PyFloat}, x.isFin → x = fin x.qval := by
  intro x hx
  cases x with
  | fin q => rfl
  | inf p => cases p <;> simp [isFin, rank] at hx
  | nan => simp [isFin, rank] at hx

end PyFloat

theorem sortedPairs_perm (row : List PyFloat) : List.Perm (sortedPairs row) row.enum :=
  List.perm_insertionSort pairLeP row.enum

theorem sortedPairs_sorted (row : List PyFloat) : (sortedPairs row).Pairwise pairLeP :=
  List.sorted_insertionSort pairLeP row.enum

theorem mem_sortedPairs {row : List PyFloat} {p : ℕ × PyFloat} :
    p ∈ sortedPairs row ↔ p ∈ row.enum :=
  (sortedPairs_perm row).mem_iff

theorem enum_nodup (l : List α) : l.enum.Nodup :=
  List.Nodup.of_map Prod.fst (by rw [List.enum_map_fst]; exact List.nodup_range l.length)

theorem mem_enum_bound {l : List α} {p : ℕ × α} (h : p ∈ l.enum) : p.1 < l.length := by
  have := List.mem_enum_iff_getElem?.mp h
  exact (List.getElem?_eq_some.mp this).1

theorem getD_of_mem_enum {l : List α} {p : ℕ × α} (h : p ∈ l.enum) (d : α) :
    l.getD p.1 d = p.2 := by
  have h' := List.mem_enum_iff_getElem?.mp h
  rw [List.getD_eq_getElem?_getD, h']
  rfl

theorem snd_mem_of_mem_enum {l : List α} {p : ℕ × α} (h : p ∈ l.enum) : p.2 ∈ l := by
  have hb := mem_enum_bound h
  have := getD_of_mem_enum h p.2
  rw [List.getD_eq_getElem l p.2 hb] at this
  rw [← this]
  exact List.getElem_mem hb

theorem top_features_ind_eq_selPairs (row : List PyFloat) (n : ℕ) :
    top_features_ind row n = (selPairs row n).map Prod.fst := by
  unfold top_features_ind selPairs argsort pySliceTopRev
  rw [← List.map_reverse, ← List.map_take]

theorem mem_selPairs {row : List PyFloat} {n : ℕ} {p : ℕ × PyFloat}
    (h : p ∈ selPairs row n) : p ∈ row.enum := by
  apply mem_sortedPairs.mp
  have := (List.take_sublist n ((sortedPairs row).reverse)).subset h
  exact List.mem_reverse.mp this

theorem selPairs_pairwise (row : List PyFloat) (n : ℕ) :
    (selPairs row n).Pairwise (fun a b => pairLeP b a) :=
  List.Pairwise.sublist (List.take_sublist n _)
    (List.pairwise_reverse.mpr (sortedPairs_sorted row))

theorem selPairs_nodup (row : List PyFloat) (n : ℕ) : (selPairs row n).Nodup :=
  List.Nodup.sublist (List.take_sublist n _)
    (List.nodup_reverse.mpr ((sortedPairs_perm row).symm.nodup (enum_nodup row)))

theorem length_selPairs (row : List PyFloat) (n : ℕ) :
    (selPairs row n).length = min n row.length := by
  unfold selPairs sortedPairs
  simp [List.length_insertionSort, List.enum_length]

theorem length_top_features_ind (row : List PyFloat) (n : ℕ) :
    (top_features_ind row n).length = min n row.length := by
  rw [top_features_ind_eq_selPairs, List.length_map, length_selPairs]

theorem mem_top_features_ind {row : List PyFloat} {n i : ℕ}
    (h : i ∈ top_features_ind row n) : i < row.length := by
  rw [top_features_ind_eq_selPairs] at h
  obtain ⟨p, hp, rfl⟩ := List.mem_map.mp h
  exact mem_enum_bound (mem_selPairs hp)

theorem top_features_ind_nodup (row : List PyFloat) (n : ℕ) :
    (top_features_ind row n).Nodup := by
  rw [top_features_ind_eq_selPairs]
  apply (selPairs_nodup row n).map_on
  intro p hp q hq hfst
  have hp' := mem_selPairs hp
  have hq' := mem_selPairs hq
  have : row.getD p.1 PyFloat.nan = row.getD q.1 PyFloat.nan := by rw [hfst]
  rw [getD_of_mem_enum hp', getD_of_mem_enum hq'] at this
  exact Prod.ext hfst this

theorem mapExcept_eq_ok_map {f : α → Except ε β} {g : α → β} :
    ∀ {l : List α}, (∀ a ∈ l, f a = .ok (g a)) → mapExcept f l = .ok (l.map g) := by
  intro l h
  induction l with
  | nil => rfl
  | cons a t ih =>
    have ha := h a (List.mem_cons_self a t)
    have ht := ih (fun x hx => h x (List.mem_cons_of_mem a hx))
    simp only [mapExcept, ha, ht, List.map_cons]

theorem topicTopWords_eq_ok {names : List String} {n : ℕ} {topic : List PyFloat}
    (h : ∀ i ∈ top_features_ind topic n, i < names.length) :
    topicTopWords names n topic = .ok (summaryRow names n topic) := by
  unfold topicTopWords summaryRow
  apply mapExcept_eq_ok_map
  intro i hi
  have hb := h i hi
  simp [listGet, hb, Except.map, List.getD_eq_getElem names "" hb]

theorem extract_eq_ok {names : List String} {n : ℕ} {comps : List (List PyFloat)}
    (h : ∀ row ∈ comps, ∀ i ∈ top_features_ind row n, i < names.length) :
    mapExcept (topicTopWords names n) comps = .ok (comps.map (summaryRow names n)) :=
  mapExcept_eq_ok_map (fun row hr => topicTopWords_eq_ok (h row hr))

theorem plot_top_words_eq_ok {components : List (List PyFloat)} {names : List String}
    {n : ℕ} {normalize : Bool}
    (h : ∀ row ∈ (if normalize then normalizeComponents components else components),
         ∀ i ∈ top_features_ind row n, i < names.length) :
    plot_top_words components names n normalize
      = .ok ((if normalize then normalizeComponents components else components).map
          (summaryRow names n)) := by
  unfold plot_top_words
  exact extract_eq_ok h

theorem foldl_add_fin : ∀ (row : List PyFloat), (∀ x ∈ row, x.isFin) →
    ∀ a : ℚ, row.foldl PyFloat.add (PyFloat.fin a)
      = PyFloat.fin (a + (row.map PyFloat.qval).sum)
  | [], _, a => by simp
  | x :: t, h, a => by
    have hx' := PyFloat.eq_fin_of_isFin (h x (List.mem_cons_self x t))
    have ih := foldl_add_fin t (fun y hy => h y (List.mem_cons_of_mem x hy)) (a + x.qval)
    rw [List.foldl_cons,
      show PyFloat.add (PyFloat.fin a) x = PyFloat.fin (a + x.qval) by rw [hx']; rfl,
      ih, List.map_cons, List.sum_cons]
    congr 1
    ring

theorem pySum_fin {row : List PyFloat} (h : ∀ x ∈ row, x.isFin) :
    pySum row = PyFloat.fin ((row.map PyFloat.qval).sum) := by
  unfold pySum
  rw [foldl_add_fin row h 0, zero_add]

theorem sum_map_div (l : List ℚ) (s : ℚ) : (l.map (fun q => q / s)).sum = l.sum / s := by
  induction l with
  | nil => simp
  | cons q t ih => simp [ih, add_div]

theorem normalizeRow_eq {row : List PyFloat} (hfin : ∀ x ∈ row, x.isFin)
    (hs : (row.map PyFloat.qval).sum ≠ 0) :
    row.map (fun x => x.div (pySum row))
      = row.map (fun x => PyFloat.fin (x.qval / (row.map PyFloat.qval).sum)) := by
  apply List.map_congr_left
  intro x hx
  rw [pySum_fin hfin]
  rw [PyFloat.eq_fin_of_isFin (hfin x hx)]
  simp [PyFloat.div, hs]
  rfl

theorem isFin_normalizeRow {row : List PyFloat} (hfin : ∀ x ∈ row, x.isFin)
    (hs : (row.map PyFloat.qval).sum ≠ 0) :
    ∀ y ∈ row.map (fun x => x.div (pySum row)), y.isFin := by
  rw [normalizeRow_eq hfin hs]
  intro y hy
  obtain ⟨x, hx, rfl⟩ := List.mem_map.mp hy
  rfl

theorem pySum_normalizeRow {row : List PyFloat} (hfin : ∀ x ∈ row, x.isFin)
    (hs : (row.map PyFloat.qval).sum ≠ 0) :
    pySum (row.map (fun x => x.div (pySum row))) = PyFloat.fin 1 := by
  rw [normalizeRow_eq hfin hs]
  rw [pySum_fin (by
    intro y hy
    obtain ⟨x, hx, rfl⟩ := List.mem_map.mp hy
    rfl)]
  congr 1
  calc ((row.map fun x => PyFloat.fin (x.qval / (row.map PyFloat.qval).sum)).map
          PyFloat.qval).sum
      = ((row.map PyFloat.qval).map (fun q => q / (row.map PyFloat.qval).sum)).sum := by
        rw [List.map_map, List.map_map]
        rfl
    _ = (row.map PyFloat.qval).sum / (row.map PyFloat.qval).sum := sum_map_div _ _
    _ = 1 := div_self hs

theorem summaryRow_snd (names : List String) (n : ℕ) (topic : List PyFloat) :
    (summaryRow names n topic).map Prod.snd = (selPairs topic n).map Prod.snd := by
  unfold summaryRow
  rw [List.map_map, top_features_ind_eq_selPairs, List.map_map]
  apply List.map_congr_left
  intro p hp
  exact getD_of_mem_enum (mem_selPairs hp) PyFloat.nan

theorem summaryRow_weights_sorted (names : List String) (n : ℕ) (topic : List PyFloat) :
    ((summaryRow names n topic).map Prod.snd).Pairwise (fun a b => valueLe b a) := by
  rw [summaryRow_snd]
  apply List.pairwise_map.mpr
  apply (selPairs_pairwise topic n).imp
  intro a b hab
  rcases hab with h | ⟨h, h'⟩
  · exact Or.inl h
  · refine Or.inr ⟨h, ?_⟩
    rcases h' with h' | ⟨h', _⟩
    · exact le_of_lt h'
    · exact le_of_eq h'

theorem summaryRow_weights_mem {names : List String} {n : ℕ} {topic : List PyFloat}
    {w : PyFloat} (hw : w ∈ (summaryRow names n topic).map Prod.snd) : w ∈ topic := by
  rw [summaryRow_snd] at hw
  obtain ⟨p, hp, rfl⟩ := List.mem_map.mp hw
  exact snd_mem_of_mem_enum (mem_selPairs hp)

theorem length_summaryRow (names : List String) (n : ℕ) (topic : List PyFloat) :
    (summaryRow names n topic).length = min n topic.length := by
  unfold summaryRow
  rw [List.length_map, length_top_features_ind]

theorem Store.read_alloc (h : Store) (a : List (List PyFloat)) :
    Store.read (h ++ [a]) h.length = a := by
  unfold Store.read
  rw [List.getD_append_right h [a] [] h.length le_rfl]
  simp

theorem length_argsort (row : List PyFloat) : (argsort row).length = row.length := by
  unfold argsort sortedPairs
  simp [List.length_insertionSort, List.enum_length]

theorem top_features_ind_clamp {row : List PyFloat} {n : ℕ} (hn : row.length ≤ n) :
    top_features_ind row n = top_features_ind row row.length := by
  unfold top_features_ind pySliceTopRev
  rw [List.take_of_length_le (by simpa [length_argsort] using hn),
    List.take_of_length_le (by simp [length_argsort])]

theorem eff_cases (components : List (List PyFloat)) (normalize : Bool) :
    (if normalize then normalizeComponents components else components)
        = normalizeComponents components ∨
      (if normalize then normalizeComponents components else components) = components := by
  cases normalize
  · exact Or.inr rfl
  · exact Or.inl rfl

theorem mem_eff {components : List (List PyFloat)} {normalize : Bool} {row : List PyFloat}
    (h : row ∈ (if normalize then normalizeComponents components else components)) :
    row ∈ components ∨
      ∃ row0 ∈ components, row = row0.map (fun x => x.div (pySum row0)) := by
  rcases eff_cases components normalize with he | he <;> rw [he] at h
  · obtain ⟨row0, h0, rfl⟩ := List.mem_map.mp h
    exact Or.inr ⟨row0, h0, rfl⟩
  · exact Or.inl h

theorem eff_rect {components : List (List PyFloat)} {T : ℕ}
    (hrect : ∀ row ∈ components, row.length = T) {normalize : Bool} :
    ∀ row ∈ (if normalize then normalizeComponents components else components),
      row.length = T := by
  intro row hr
  rcases mem_eff hr with h | ⟨row0, h0, rfl⟩
  · exact hrect row h
  · rw [List.length_map]
    exact hrect row0 h0

theorem eff_bound {components : List (List PyFloat)} {names : List String} {n T : ℕ}
    (hrect : ∀ row ∈ components, row.length = T) (hnames : T ≤ names.length)
    (normalize : Bool) :
    ∀ row ∈ (if normalize then normalizeComponents components else components),
      ∀ i ∈ top_features_ind row n, i < names.length := by
  intro row hr i hi
  have h1 := mem_top_features_ind hi
  have h2 := eff_rect hrect row hr
  omega

theorem eff_length (components : List (List PyFloat)) (normalize : Bool) :
    (if normalize then normalizeComponents components else components).length
      = components.length := by
  rcases eff_cases components normalize with he | he
  · rw [he]
    exact List.length_map components _
  · rw [he]

theorem eff_fin {components : List (List PyFloat)}
    (hfin : ∀ row ∈ components, ∀ x ∈ row, x.isFin) {normalize : Bool}
    (hsum : normalize = true → ∀ row ∈ components, (row.map PyFloat.qval).sum ≠ 0) :
    ∀ row ∈ (if normalize then normalizeComponents components else components),
      ∀ x ∈ row, x.isFin := by
  cases normalize with
  | false =>
    intro row hr x hx
    exact hfin row
      (by rwa [show (if false then normalizeComponents components else components)
        = components from rfl] at hr) x hx
  | true =>
    intro row hr x hx
    rw [show (if true then normalizeComponents components else components)
      = normalizeComponents components from rfl] at hr
    obtain ⟨row0, h0, rfl⟩ := List.mem_map.mp hr
    exact isFin_normalizeRow (hfin row0 h0) (hsum rfl row0 h0) x hx

/-- C1 counterexample: the single-topic matrix [[1, 1]] has its two columns
exactly tied; the extraction outputs column 1 ("b") before column 0 ("a"),
i.e. descending original index, not ascending as claimed. -/
theorem C1_counterexample :
    plot_top_words [[PyFloat.fin 1, PyFloat.fin 1]] ["a", "b"] 2 false
        = .ok [[("b", PyFloat.fin 1), ("a", PyFloat.fin 1)]] ∧
      plot_top_words [[PyFloat.fin 1, PyFloat.fin 1]] ["a", "b"] 2 false
        ≠ .ok [[("a", PyFloat.fin 1), ("b", PyFloat.fin 1)]] := by
  constructor
  · rfl
  · intro hcontra
    have h1 : plot_top_words [[PyFloat.fin 1, PyFloat.fin 1]] ["a", "b"] 2 false
        = .ok [[("b", PyFloat.fin 1), ("a", PyFloat.fin 1)]] := rfl
    rw [h1] at hcontra
    simp at hcontra

/-- C1 (amended): whenever two selected columns of a topic row hold exactly
equal weight, the extraction lists them in DESCENDING original column-index
order (the ascending stable argsort is traversed through the reversing slice
`[: -n-1 : -1]`). -/
theorem C1_tiebreak_descending (row : List PyFloat) (n : ℕ) :
    (top_features_ind row n).Pairwise
      (fun i j => row.getD i PyFloat.nan = row.getD j PyFloat.nan → j < i) := by
  rw [top_features_ind_eq_selPairs]
  apply List.pairwise_map.mpr
  have hpw := (selPairs_pairwise row n).and (selPairs_nodup row n)
  apply hpw.imp_of_mem
  intro p q hmp hmq hR hval
  obtain ⟨hle, hne⟩ := hR
  have hp := getD_of_mem_enum (mem_selPairs hmp) PyFloat.nan
  have hq := getD_of_mem_enum (mem_selPairs hmq) PyFloat.nan
  rw [hp, hq] at hval
  rcases hle with h1 | ⟨h1, h2⟩
  · rw [hval] at h1
    exact absurd h1 (lt_irrefl _)
  · rcases h2 with h2 | ⟨h2, h3⟩
    · rw [hval] at h2
      exact absurd h2 (lt_irrefl _)
    · rcases lt_or_eq_of_le h3 with h4 | h4
      · exact h4
      · exact absurd (Prod.ext h4.symm hval) hne

/-- C2 counterexample: the degenerate matrix [[0,0,0,0]] with normalize=true
raises nothing; the division yields NaN weights and a full output row is
produced. -/
theorem C2_counterexample :
    plot_top_words [[PyFloat.fin 0, PyFloat.fin 0, PyFloat.fin 0, PyFloat.fin 0]]
        ["a", "b", "c", "d"] 10 true
      = .ok [[("d", PyFloat.nan), ("c", PyFloat.nan), ("b", PyFloat.nan),
          ("a", PyFloat.nan)]] := by
  norm_num [plot_top_words, topicTopWords, top_features_ind, pySliceTopRev, argsort,
    sortedPairs, pairLeP, PyFloat.rank, PyFloat.qval, listGet, mapExcept, Except.map,
    List.enum, List.enumFrom, normalizeComponents, pySum, PyFloat.add, PyFloat.div]

/-- C2 (amended): a matrix containing an all-zero row, extracted with
normalize=true, raises no error: the row division computes 0/0 = NaN, the
call succeeds, and that row's summary is produced with every weight NaN. -/
theorem C2_degenerate_row_nan (components : List (List PyFloat)) (names : List String)
    (n T : ℕ)
    (hrect : ∀ row ∈ components, row.length = T)
    (hnames : names.length = T) :
    ∃ out, plot_top_words components names n true = .ok out ∧
      out.length = components.length ∧
      ∀ row ∈ components, (∀ x ∈ row, x = PyFloat.fin 0) →
        ∀ p ∈ summaryRow names n (row.map (fun x => x.div (pySum row))),
          p.2 = PyFloat.nan := by
  have hbound := eff_bound (n := n) hrect (le_of_eq hnames.symm) true
  refine ⟨_, plot_top_words_eq_ok hbound, ?_, ?_⟩
  · rw [List.length_map]
    exact eff_length components true
  · intro row hrow hzero p hp
    have hsum0 : pySum row = PyFloat.fin 0 := by
      have : ∀ x ∈ row, x.isFin := by
        intro x hx
        rw [hzero x hx]
        rfl
      rw [pySum_fin this]
      have : (row.map PyFloat.qval).sum = 0 := by
        apply List.sum_eq_zero
        intro q hq
        obtain ⟨x, hx, rfl⟩ := List.mem_map.mp hq
        rw [hzero x hx]
        rfl
      rw [this]
    have hnanrow : ∀ y ∈ row.map (fun x => x.div (pySum row)), y = PyFloat.nan := by
      intro y hy
      obtain ⟨x, hx, rfl⟩ := List.mem_map.mp hy
      rw [hzero x hx, hsum0]
      simp [PyFloat.div]
    have hw : p.2 ∈ (summaryRow names n (row.map (fun x => x.div (pySum row)))).map
        Prod.snd := List.mem_map_of_mem Prod.snd hp
    exact hnanrow p.2 (summaryRow_weights_mem hw)

/-- C3 counterexample: vocabulary length 3 disagrees with the column count 2,
yet the extraction does not fail: it returns a normal result. -/
theorem C3_counterexample :
    (["a", "b", "c"].length = 3 ∧ ([PyFloat.fin 1, PyFloat.fin 2] : List PyFloat).length = 2) ∧
      plot_top_words [[PyFloat.fin 1, PyFloat.fin 2]] ["a", "b", "c"] 1 false
        = .ok [[("b", PyFloat.fin 2)]] :=
  ⟨⟨rfl, rfl⟩, rfl⟩

/-- C3 (amended): the code performs no shape validation. Whenever the
vocabulary is at least as long as the rows — equal or not — the extraction
succeeds; a mismatch is never detected up front (a too-short vocabulary only
manifests as an IndexError at token-lookup time, after normalization and
selection). -/
theorem C3_no_shape_validation (components : List (List PyFloat)) (names : List String)
    (n T : ℕ) (normalize : Bool)
    (hrect : ∀ row ∈ components, row.length = T)
    (hnames : T ≤ names.length) :
    ∃ out, plot_top_words components names n normalize = .ok out :=
  ⟨_, plot_top_words_eq_ok (eff_bound (n := n) hrect hnames normalize)⟩

/-- C4 counterexample: topN = 0 lies outside [1, numTerms] yet raises no
error (empty summaries), and topN = 3 > numTerms = 2 is silently clamped to
the full row rather than rejected. -/
theorem C4_counterexample :
    plot_top_words [[PyFloat.fin 1, PyFloat.fin 2]] ["a", "b"] 0 false = .ok [[]] ∧
      plot_top_words [[PyFloat.fin 1, PyFloat.fin 2]] ["a", "b"] 3 false
        = plot_top_words [[PyFloat.fin 1, PyFloat.fin 2]] ["a", "b"] 2 false :=
  ⟨rfl, rfl⟩

/-- C4 (amended): the code performs no topN validation and raises no
InvalidTopN-class error for any topN: each topic summary simply has
min(topN, numTerms) entries, so topN = 0 yields empty output and
topN > numTerms silently clamps to numTerms. -/
theorem C4_no_topn_validation (components : List (List PyFloat)) (names : List String)
    (n T : ℕ) (normalize : Bool)
    (hrect : ∀ row ∈ components, row.length = T)
    (hnames : T ≤ names.length) :
    ∃ out, plot_top_words components names n normalize = .ok out ∧
      ∀ s ∈ out, s.length = min n T := by
  refine ⟨_, plot_top_words_eq_ok (eff_bound (n := n) hrect hnames normalize), ?_⟩
  intro s hs
  obtain ⟨row, hrow, rfl⟩ := List.mem_map.mp hs
  rw [length_summaryRow, eff_rect hrect row hrow]

/-- C5 (confirmed): for every rectangular weight matrix with finite entries,
vocabulary of matching length, and 1 ≤ topN ≤ numTerms (with nonzero row sums
when normalizing), the extraction succeeds, and each topic summary has length
exactly topN = min(topN, numTerms) with finite weights non-increasing along
the sequence (topN = numTerms gives the full row sorted descending). -/
theorem C5_output_shape_and_order (components : List (List PyFloat))
    (names : List String) (n T : ℕ) (normalize : Bool)
    (hrect : ∀ row ∈ components, row.length = T)
    (hnames : names.length = T)
    (hfin : ∀ row ∈ components, ∀ x ∈ row, x.isFin)
    (hsum : normalize = true → ∀ row ∈ components, (row.map PyFloat.qval).sum ≠ 0)
    (h1 : 1 ≤ n) (hT : n ≤ T) :
    ∃ out, plot_top_words components names n normalize = .ok out ∧
      out.length = components.length ∧
      ∀ s ∈ out, s.length = n ∧ (∀ w ∈ s.map Prod.snd, w.isFin) ∧
        (s.map Prod.snd).Pairwise (fun a b => valueLe b a) := by
  refine ⟨_,
    plot_top_words_eq_ok (eff_bound (n := n) hrect (le_of_eq hnames.symm) normalize),
    ?_, ?_⟩
  · rw [List.length_map, eff_length]
  · intro s hs
    obtain ⟨row, hrow, rfl⟩ := List.mem_map.mp hs
    refine ⟨?_, ?_, summaryRow_weights_sorted names n row⟩
    · rw [length_summaryRow, eff_rect hrect row hrow]
      omega
    · intro w hw
      exact eff_fin hfin hsum row hrow w (summaryRow_weights_mem hw)

/-- C6 (confirmed): for every matrix of finite non-negative entries with no
zero-sum row, every full row of the normalized matrix
(`components / components.sum(axis=1)[:, np.newaxis]`) sums to exactly 1. -/
theorem C6_normalization_row_sum_one (components : List (List PyFloat))
    (hfin : ∀ row ∈ components, ∀ x ∈ row, x.isFin)
    (hnn : ∀ row ∈ components, ∀ x ∈ row, 0 ≤ x.qval)
    (hsum : ∀ row ∈ components, (row.map PyFloat.qval).sum ≠ 0) :
    ∀ row' ∈ normalizeComponents components, pySum row' = PyFloat.fin 1 := by
  intro row' hr'
  obtain ⟨row, hrow, rfl⟩ := List.mem_map.mp hr'
  exact pySum_normalizeRow (hfin row hrow) (hsum row hrow)

/-- C7 (confirmed): the worked example — matrix [[0.1, 0, 0.4, 0.5]],
vocabulary ["a","b","c","d"], topN = 2 — returns [("d", 0.5), ("c", 0.4)]
both with normalize=false and with normalize=true (row already sums to 1). -/
theorem C7_worked_example :
    plot_top_words
        [[PyFloat.fin (1/10), PyFloat.fin 0, PyFloat.fin (2/5), PyFloat.fin (1/2)]]
        ["a", "b", "c", "d"] 2 false
      = .ok [[("d", PyFloat.fin (1/2)), ("c", PyFloat.fin (2/5))]] ∧
    plot_top_words
        [[PyFloat.fin (1/10), PyFloat.fin 0, PyFloat.fin (2/5), PyFloat.fin (1/2)]]
        ["a", "b", "c", "d"] 2 true
      = .ok [[("d", PyFloat.fin (1/2)), ("c", PyFloat.fin (2/5))]] := by
  constructor
  · norm_num [plot_top_words, topicTopWords, top_features_ind, pySliceTopRev, argsort,
      sortedPairs, pairLeP, PyFloat.rank, PyFloat.qval, listGet, mapExcept, Except.map,
      List.enum, List.enumFrom]
  · norm_num [plot_top_words, topicTopWords, top_features_ind, pySliceTopRev, argsort,
      sortedPairs, pairLeP, PyFloat.rank, PyFloat.qval, listGet, mapExcept, Except.map,
      List.enum, List.enumFrom, normalizeComponents, pySum, PyFloat.add, PyFloat.div]

/-- C8 (confirmed): the call never mutates its inputs: in the state-passing
embedding every pre-existing array of the store - in particular the caller's
`model.components_` - is unchanged after the call (normalization allocates a
fresh array), and the result is the pure function of the read inputs. -/
theorem C8_purity_frame (h : Store) (r : ℕ) (names : List String) (n : ℕ)
    (normalize : Bool) :
    ((plot_top_words_run h r names n normalize).1).take h.length = h ∧
      (plot_top_words_run h r names n normalize).2
        = plot_top_words (Store.read h r) names n normalize := by
  cases normalize with
  | false => exact ⟨List.take_of_length_le le_rfl, rfl⟩
  | true =>
    constructor
    · exact List.take_left h [normalizeComponents (Store.read h r)]
    · show mapExcept (topicTopWords names n)
          (Store.read (h ++ [normalizeComponents (Store.read h r)]) h.length)
        = plot_top_words (Store.read h r) names n true
      rw [Store.read_alloc]
      rfl

/-- C9 (confirmed): for every n_top_words strictly greater than the column
count, the extraction raises no error and returns exactly the output of
n_top_words = numTerms: the selection slice silently clamps. -/
theorem C9_silent_clamping (components : List (List PyFloat)) (names : List String)
    (n T : ℕ) (normalize : Bool)
    (hrect : ∀ row ∈ components, row.length = T)
    (hnames : names.length = T)
    (hn : T < n) :
    ∃ out, plot_top_words components names n normalize = .ok out ∧
      plot_top_words components names T normalize = .ok out := by
  refine ⟨_,
    plot_top_words_eq_ok (eff_bound (n := n) hrect (le_of_eq hnames.symm) normalize),
    ?_⟩
  rw [plot_top_words_eq_ok (eff_bound (n := T) hrect (le_of_eq hnames.symm) normalize)]
  congr 1
  apply List.map_congr_left
  intro row hrow
  have hlen := eff_rect hrect row hrow
  unfold summaryRow
  rw [top_features_ind_clamp (show row.length ≤ n by omega), hlen]

/-- C10 (confirmed): on valid input the extraction returns, for each
(possibly normalized) topic row, exactly the pairs (vocabulary[i], row[i])
over the selected indices i, which are pairwise distinct and in range. -/
theorem C10_pairing_consistency (components : List (List PyFloat))
    (names : List String) (n T : ℕ) (normalize : Bool)
    (hrect : ∀ row ∈ components, row.length = T)
    (hnames : names.length = T) :
    plot_top_words components names n normalize
      = .ok ((if normalize then normalizeComponents components else components).map
          (fun row => (top_features_ind row n).map
            (fun i => (names.getD i "", row.getD i PyFloat.nan)))) ∧
      ∀ row ∈ (if normalize then normalizeComponents components else components),
        (top_features_ind row n).Nodup ∧
          ∀ i ∈ top_features_ind row n, i < row.length := by
  refine ⟨plot_top_words_eq_ok
    (eff_bound (n := n) hrect (le_of_eq hnames.symm) normalize), ?_⟩
  intro row hrow
  exact ⟨top_features_ind_nodup row n, fun i hi => mem_top_features_ind hi⟩

/-- C2 witness: the amended degenerate-row theorem applied to the concrete
all-zero matrix [[0, 0]] with vocabulary ["a","b"]. -/
theorem C2_degenerate_row_nan_witness :
    (∀ row ∈ [[PyFloat.fin 0, PyFloat.fin 0]], row.length = 2) ∧
      (["a", "b"] : List String).length = 2 ∧
      ∃ out, plot_top_words [[PyFloat.fin 0, PyFloat.fin 0]] ["a", "b"] 2 true
          = .ok out ∧
        out.length = [[PyFloat.fin 0, PyFloat.fin 0]].length ∧
        ∀ row ∈ [[PyFloat.fin 0, PyFloat.fin 0]], (∀ x ∈ row, x = PyFloat.fin 0) →
          ∀ p ∈ summaryRow ["a", "b"] 2 (row.map (fun x => x.div (pySum row))),
            p.2 = PyFloat.nan :=
  ⟨by decide, rfl,
    C2_degenerate_row_nan [[PyFloat.fin 0, PyFloat.fin 0]] ["a", "b"] 2 2
      (by decide) rfl⟩

/-- C3 witness: the amended no-shape-validation theorem applied to a matrix
with 2 columns and a vocabulary of 3 entries. -/
theorem C3_no_shape_validation_witness :
    (∀ row ∈ [[PyFloat.fin 1, PyFloat.fin 2]], row.length = 2) ∧
      2 ≤ (["a", "b", "c"] : List String).length ∧
      ∃ out, plot_top_words [[PyFloat.fin 1, PyFloat.fin 2]] ["a", "b", "c"] 1 false
        = .ok out :=
  ⟨by decide, by decide,
    C3_no_shape_validation [[PyFloat.fin 1, PyFloat.fin 2]] ["a", "b", "c"] 1 2 false
      (by decide) (by decide)⟩

/-- C4 witness: the amended no-topN-validation theorem applied at
topN = 0, outside [1, numTerms]. -/
theorem C4_no_topn_validation_witness :
    (∀ row ∈ [[PyFloat.fin 1, PyFloat.fin 2]], row.length = 2) ∧
      2 ≤ (["a", "b"] : List String).length ∧
      ∃ out, plot_top_words [[PyFloat.fin 1, PyFloat.fin 2]] ["a", "b"] 0 false
          = .ok out ∧
        ∀ s ∈ out, s.length = min 0 2 :=
  ⟨by decide, by decide,
    C4_no_topn_validation [[PyFloat.fin 1, PyFloat.fin 2]] ["a", "b"] 0 2 false
      (by decide) (by decide)⟩

/-- C5 witness: the shape-and-order theorem applied to [[1, 2]] with
vocabulary ["a","b"], topN = 1, normalize=false. -/
theorem C5_output_shape_and_order_witness :
    (∀ row ∈ [[PyFloat.fin 1, PyFloat.fin 2]], row.length = 2) ∧
      (["a", "b"] : List String).length = 2 ∧
      (∀ row ∈ [[PyFloat.fin 1, PyFloat.fin 2]], ∀ x ∈ row, x.isFin) ∧
      1 ≤ 1 ∧ 1 ≤ 2 ∧
      ∃ out, plot_top_words [[PyFloat.fin 1, PyFloat.fin 2]] ["a", "b"] 1 false
          = .ok out ∧
        out.length = [[PyFloat.fin 1, PyFloat.fin 2]].length ∧
        ∀ s ∈ out, s.length = 1 ∧ (∀ w ∈ s.map Prod.snd, w.isFin) ∧
          (s.map Prod.snd).Pairwise (fun a b => valueLe b a) :=
  ⟨by decide, rfl, by decide, le_rfl, by decide,
    C5_output_shape_and_order [[PyFloat.fin 1, PyFloat.fin 2]] ["a", "b"] 1 2 false
      (by decide) rfl (by decide) (by intro hcontra; cases hcontra) le_rfl (by decide)⟩

/-- C6 witness: the normalization theorem applied to the single-row matrix
[[1, 3]]. -/
theorem C6_normalization_row_sum_one_witness :
    (∀ row ∈ [[PyFloat.fin 1, PyFloat.fin 3]], ∀ x ∈ row, x.isFin) ∧
      (∀ row ∈ [[PyFloat.fin 1, PyFloat.fin 3]], ∀ x ∈ row, 0 ≤ x.qval) ∧
      (∀ row ∈ [[PyFloat.fin 1, PyFloat.fin 3]], (row.map PyFloat.qval).sum ≠ 0) ∧
      ∀ row' ∈ normalizeComponents [[PyFloat.fin 1, PyFloat.fin 3]],
        pySum row' = PyFloat.fin 1 := by
  have h1 : ∀ row ∈ [[PyFloat.fin 1, PyFloat.fin 3]], ∀ x ∈ row, x.isFin := by decide
  have h2 : ∀ row ∈ [[PyFloat.fin 1, PyFloat.fin 3]], ∀ x ∈ row, 0 ≤ x.qval := by decide
  have h3 : ∀ row ∈ [[PyFloat.fin 1, PyFloat.fin 3]],
      (row.map PyFloat.qval).sum ≠ 0 := by
    norm_num [PyFloat.qval]
  exact ⟨h1, h2, h3, C6_normalization_row_sum_one [[PyFloat.fin 1, PyFloat.fin 3]] h1 h2 h3⟩

/-- C9 witness: the clamping theorem applied to [[1, 2]] with topN = 3 > 2
columns. -/
theorem C9_silent_clamping_witness :
    (∀ row ∈ [[PyFloat.fin 1, PyFloat.fin 2]], row.length = 2) ∧
      (["a", "b"] : List String).length = 2 ∧ 2 < 3 ∧
      ∃ out, plot_top_words [[PyFloat.fin 1, PyFloat.fin 2]] ["a", "b"] 3 false
          = .ok out ∧
        plot_top_words [[PyFloat.fin 1, PyFloat.fin 2]] ["a", "b"] 2 false = .ok out :=
  ⟨by decide, rfl, by decide,
    C9_silent_clamping [[PyFloat.fin 1, PyFloat.fin 2]] ["a", "b"] 3 2 false
      (by decide) rfl (by decide)⟩

/-- C10 witness: the pairing-consistency theorem applied to [[1, 2]] with
vocabulary ["a","b"] and topN = 1. -/
theorem C10_pairing_consistency_witness :
    (∀ row ∈ [[PyFloat.fin 1, PyFloat.fin 2]], row.length = 2) ∧
      (["a", "b"] : List String).length = 2 ∧
      (plot_top_words [[PyFloat.fin 1, PyFloat.fin 2]] ["a", "b"] 1 false
          = .ok ([[PyFloat.fin 1, PyFloat.fin 2]].map
            (fun row => (top_features_ind row 1).map
              (fun i => ((["a", "b"] : List String).getD i "",
                row.getD i PyFloat.nan)))) ∧
        ∀ row ∈ [[PyFloat.fin 1, PyFloat.fin 2]],
          (top_features_ind row 1).Nodup ∧
            ∀ i ∈ top_features_ind row 1, i < row.length) :=
  ⟨by decide, rfl,
    C10_pairing_consistency [[PyFloat.fin 1, PyFloat.fin 2]] ["a", "b"] 1 2 false
      (by decide) rfl⟩

end TextXD
